import Mathlib

/-!
# LLAD `SampleLogger` — shallow embedding and verification

This file embeds the LLAD crate (`src/lib.rs`) in Lean 4 and settles the
frozen claims about it.

Modelling choices:

* `HashMap<String, Vec<f32>>` is modelled as an association list
  `List (String × List α)` with distinct keys; the list order stands for the
  map's iteration order (`keys()` / `values()` iterate consistently over an
  unmutated map in Rust, which the model preserves).  Sample values (`f32`)
  are an abstract type `α`; the decimal text encoding is a parameter
  `enc : α → String` and its parser `dec : String → Option α`, with the
  floating round-trip property `dec (enc v) = some v` taken as a hypothesis
  where a claim needs it.
* `u64` counters are `Nat` with arithmetic reduced `% 2^64` where the source
  increments them.
* Rust panics (integer division by zero in `is_logged_correctly`, `.expect`
  and out-of-bounds indexing in `read_csv_as_audio_data`) are modelled as an
  explicit `panic` outcome, distinct from `Ok`/`Err` results.
* The `disabled` cargo feature (`cfg!(feature = "disabled")`) is a `Bool`
  parameter threaded through the functions that test it.
* File I/O is abstracted: `write_debug_values` returns the rows it would
  write to the CSV file (or `none` when it writes no file at all), and
  `read_csv_as_audio_data` consumes a list of rows of fields.
-/

namespace LLAD

/-- `2^64`, the modulus of Rust's `u64`. -/
def u64Mod : Nat := 18446744073709551616

/-- Outcome of `SampleLogger::write` / `is_logged_correctly`:
`Result<(), &'static str>` plus the possibility of a Rust panic. -/
inductive Check where
  | ok : Check
  | err : String → Check
  | panic : Check
deriving DecidableEq

/-- Outcome of `SampleLogger::write_debug_values`: on success it carries the
rows written to the destination file (`none` when no file is created, as in
the disabled build), otherwise an error message or a panic. -/
inductive FlushResult where
  | ok : Option (List (List String)) → FlushResult
  | error : String → FlushResult
  | panic : FlushResult
deriving DecidableEq

/-- Outcome of `read_csv_as_audio_data`: the reconstructed table, or a panic
(the source `.expect`s on parse failure and indexes rows unchecked). -/
inductive ReadResult (α : Type) where
  | ok : List (String × List α) → ReadResult α
  | panic : ReadResult α
deriving DecidableEq

/-- The struct `SampleLogger` (src/lib.rs:86-91). -/
structure SampleLogger (α : Type) where
  debug_values : List (String × List α)
  samples_seen : Nat
  quit_after_n_samples : Option Nat
  output_file : String
deriving DecidableEq

/-- `HashMap::entry(key).or_insert(Vec::new()).push(value)`: append `value`
to `key`'s vector, creating the entry if absent. -/
def pushValue : List (String × List α) → String → α → List (String × List α)
  | [], key, value => [(key, [value])]
  | (k, vs) :: rest, key, value =>
    if k == key then (k, vs ++ [value]) :: rest
    else (k, vs) :: pushValue rest key value

/-- `SampleLogger::new` (src/lib.rs:103-110). -/
def SampleLogger.new (output_file : String) : SampleLogger α :=
  { debug_values := [], samples_seen := 0, quit_after_n_samples := none,
    output_file := output_file }

/-- `SampleLogger::set_quit_after_n_samples` (src/lib.rs:152-154). -/
def SampleLogger.set_quit_after_n_samples (s : SampleLogger α) (samples : Nat) :
    SampleLogger α :=
  { s with quit_after_n_samples := some samples }

/-- `SampleLogger::is_logging_active` (src/lib.rs:164-169). -/
def SampleLogger.is_logging_active (s : SampleLogger α) : Bool :=
  match s.quit_after_n_samples with
  | some limit => s.samples_seen < limit
  | none => true

/-- Error message at src/lib.rs:190. -/
def imbalanceMsg : String := "Element added to list caused imbalance."

/-- Error message at src/lib.rs:195. -/
def noSampleMsg : String :=
  "First sample iteration has been added but no key 'sample' is present."

/-- `SampleLogger::is_logged_correctly` (src/lib.rs:179-199).  The source
computes `n = lengths.iter().sum() / lengths.len()`; when the table is empty
this is `0 / 0`, which panics in Rust. -/
def is_logged_correctly (tbl : List (String × List α)) : Check :=
  let lengths := tbl.map (fun kv => kv.2.length)
  if lengths.length = 0 then .panic
  else
    let n := lengths.sum / lengths.length
    if !(lengths.all (fun e => e == n || e == n + 1)) then .err imbalanceMsg
    else if decide (1 < n) && !(tbl.any (fun kv => kv.1 == "sample")) then
      .err noSampleMsg
    else .ok

/-- `SampleLogger::write` (src/lib.rs:124-144).  `disabled` mirrors
`cfg!(feature = "disabled")`.  Returns the updated logger together with the
`Result` value. -/
def write (disabled : Bool) (s : SampleLogger α) (key : String) (value : α) :
    SampleLogger α × Check :=
  if !disabled then
    if !s.is_logging_active then (s, .ok)
    else
      let s1 : SampleLogger α :=
        { s with debug_values := pushValue s.debug_values key value }
      let s2 : SampleLogger α :=
        if key == "sample" then
          { s1 with samples_seen := (s1.samples_seen + 1) % u64Mod }
        else s1
      (s2, is_logged_correctly s2.debug_values)
  else (s, .ok)

/-- The rows `SampleLogger::write_debug_values` emits on its success path
(src/lib.rs:211-230): the header is the map's keys in iteration order, then
`max_len` data rows whose cells are
`value.get(i).map(|v| v.to_string()).unwrap_or(String::new())`. -/
def flushFile (enc : α → String) (tbl : List (String × List α)) :
    List (List String) :=
  let max_len := (tbl.map (fun kv => kv.2.length)).foldr max 0
  (tbl.map (fun kv => kv.1)) ::
    (List.range max_len).map (fun i =>
      tbl.map (fun kv =>
        match kv.2.get? i with
        | some v => enc v
        | none => ""))

/-- `SampleLogger::write_debug_values` (src/lib.rs:207-234). -/
def write_debug_values (disabled : Bool) (enc : α → String)
    (s : SampleLogger α) : FlushResult :=
  if !disabled then
    match is_logged_correctly s.debug_values with
    | .panic => .panic
    | .err m => .error m
    | .ok => .ok (some (flushFile enc s.debug_values))
  else .ok none

/-- `record.iter().map(|x| x.parse().expect(..)).collect()` (src/lib.rs:46-49):
parse every field of a record, `none` when any field fails to parse (the
source `.expect`s, i.e. panics, there). -/
def parseRow (dec : String → Option α) : List String → Option (List α)
  | [] => some []
  | x :: rest =>
    match dec x, parseRow dec rest with
    | some v, some vs => some (v :: vs)
    | _, _ => none

/-- Body of the record loop of `read_csv_as_audio_data` (src/lib.rs:44-56):
parse the record's fields, then push `row[i]` onto `data[header[i]]` for each
header position.  `none` models the loop aborting by panic: a field failing
to parse (`.expect`), or `row[i]` indexing out of bounds when the record is
shorter than the header. -/
def readStep (dec : String → Option α) (header : List String)
    (acc : Option (List (String × List α))) (record : List String) :
    Option (List (String × List α)) :=
  acc.bind (fun data =>
    (parseRow dec record).bind (fun row =>
      if header.length ≤ row.length then
        some ((header.zip row).foldl
          (fun d hx => pushValue d hx.1 hx.2) data)
      else none))

/-- `read_csv_as_audio_data` (src/lib.rs:37-59) on the rows of the file.  The
first row is the header (`reader.headers()`); each subsequent record is
folded through `readStep` into the accumulated table. -/
def read_csv_as_audio_data (dec : String → Option α)
    (rows : List (List String)) : ReadResult α :=
  match rows with
  | [] => .ok []
  | header :: records =>
    match records.foldl (readStep dec header) (some []) with
    | some data => .ok data
    | none => .panic

/-- Value of a decimal digit character, `none` otherwise.  Used to
instantiate the abstract field parser `dec` in concrete evaluations. -/
def digit? (c : Char) : Option Nat :=
  if c = '0' then some 0
  else if c = '1' then some 1
  else if c = '2' then some 2
  else if c = '3' then some 3
  else if c = '4' then some 4
  else if c = '5' then some 5
  else if c = '6' then some 6
  else if c = '7' then some 7
  else if c = '8' then some 8
  else if c = '9' then some 9
  else none

/-- Accumulate decimal digits; `none` on the first non-digit. -/
def natFromChars : List Char → Nat → Option Nat
  | [], acc => some acc
  | c :: cs, acc =>
    match digit? c with
    | some d => natFromChars cs (acc * 10 + d)
    | none => none

/-- A decimal parser for naturals (a concrete stand-in for `str::parse`),
used to instantiate the abstract field parser in concrete evaluations. -/
def decNat (s : String) : Option Nat :=
  match s.data with
  | [] => none
  | cs => natFromChars cs 0

/-- Fold a list of `(key, value)` record calls through `write` (enabled
build), discarding the per-call results. -/
def run (ops : List (String × α)) (s : SampleLogger α) : SampleLogger α :=
  ops.foldl (fun t op => (write false t op.1 op.2).1) s

/-- Length of `key`'s vector in the table, `0` when absent. -/
def channelLen (tbl : List (String × List α)) (key : String) : Nat :=
  match tbl.find? (fun kv => kv.1 == key) with
  | some kv => kv.2.length
  | none => 0

/-! ## Helper lemmas -/

lemma pushValue_ne_nil (tbl : List (String × List α)) (key : String)
    (value : α) : pushValue tbl key value ≠ [] := by
  cases tbl with
  | nil => simp [pushValue]
  | cons kv rest =>
    obtain ⟨k, vs⟩ := kv
    simp only [pushValue]
    split <;> simp

lemma writeActive (s : SampleLogger α) (key : String) (value : α)
    (hact : s.is_logging_active = true) :
    write false s key value =
      (if key == "sample" then
        { s with debug_values := pushValue s.debug_values key value,
                 samples_seen := (s.samples_seen + 1) % u64Mod }
       else { s with debug_values := pushValue s.debug_values key value },
       is_logged_correctly (pushValue s.debug_values key value)) := by
  simp only [write, hact, Bool.not_false, Bool.not_true, if_true, if_false,
    Bool.false_eq_true, if_neg]
  split <;> rfl

lemma write_snd_active (s : SampleLogger α) (key : String) (value : α)
    (hact : s.is_logging_active = true) :
    (write false s key value).2 =
      is_logged_correctly (pushValue s.debug_values key value) := by
  rw [writeActive s key value hact]

lemma write_fst_debug_values_active (s : SampleLogger α) (key : String)
    (value : α) (hact : s.is_logging_active = true) :
    (write false s key value).1.debug_values =
      pushValue s.debug_values key value := by
  rw [writeActive s key value hact]
  split <;> rfl

lemma sum_le_mul_length {L : List Nat} {c : Nat} (h : ∀ e ∈ L, e ≤ c) :
    L.sum ≤ c * L.length := by
  induction L with
  | nil => simp
  | cons a t ih =>
    have ha : a ≤ c := h a (by simp)
    have ht : t.sum ≤ c * t.length := ih (fun e he => h e (by simp [he]))
    simp only [List.sum_cons, List.length_cons, Nat.mul_succ]
    omega

lemma mul_length_le_sum {L : List Nat} {c : Nat} (h : ∀ e ∈ L, c ≤ e) :
    c * L.length ≤ L.sum := by
  induction L with
  | nil => simp
  | cons a t ih =>
    have ha : c ≤ a := h a (by simp)
    have ht : c * t.length ≤ t.sum := ih (fun e he => h e (by simp [he]))
    simp only [List.sum_cons, List.length_cons, Nat.mul_succ]
    omega

lemma sum_lt_mul_length {L : List Nat} {c : Nat} (hub : ∀ e ∈ L, e ≤ c)
    (hex : ∃ e ∈ L, e < c) : L.sum < c * L.length := by
  induction L with
  | nil => simp at hex
  | cons a t ih =>
    have ha : a ≤ c := hub a (by simp)
    have hubt : ∀ e ∈ t, e ≤ c := fun e he => hub e (by simp [he])
    simp only [List.sum_cons, List.length_cons, Nat.mul_succ]
    rcases hex with ⟨e, he, hec⟩
    rcases List.mem_cons.mp he with rfl | het
    · have := sum_le_mul_length hubt
      omega
    · have := ih hubt ⟨e, het, hec⟩
      omega

lemma channelLen_pushValue_same (tbl : List (String × List α)) (key : String)
    (value : α) :
    channelLen (pushValue tbl key value) key = channelLen tbl key + 1 := by
  induction tbl with
  | nil => simp [pushValue, channelLen, List.find?]
  | cons kv rest ih =>
    obtain ⟨k, vs⟩ := kv
    by_cases hk : k == key
    · simp [pushValue, channelLen, List.find?, hk]
    · simp only [pushValue, hk, Bool.false_eq_true, if_neg, not_false_iff]
      simpa [channelLen, List.find?, hk] using ih

lemma channelLen_pushValue_other (tbl : List (String × List α))
    (key key' : String) (value : α) (h : key ≠ key') :
    channelLen (pushValue tbl key value) key' = channelLen tbl key' := by
  induction tbl with
  | nil =>
    simp [pushValue, channelLen, List.find?, show (key == key') = false by
      simpa using h]
  | cons kv rest ih =>
    obtain ⟨k, vs⟩ := kv
    by_cases hk : k == key
    · have hk' : (k == key') = false := by
        have : k = key := by simpa using hk
        simpa [this] using h
      simp [pushValue, channelLen, List.find?, hk, hk']
    · simp only [pushValue, hk, Bool.false_eq_true, if_neg, not_false_iff]
      by_cases hk' : k == key'
      · simp [channelLen, List.find?, hk']
      · simpa [channelLen, List.find?, hk'] using ih

/-- The balance test of `is_logged_correctly` (`all lengths are n or n+1` with
`n` the floor of the average) fails exactly when two lengths differ by more
than one.  One direction of the equivalence, phrased on the length list. -/
lemma exists_skew_of_not_balanced {L : List Nat} (h0 : L ≠ [])
    {e : Nat} (he : e ∈ L) (hn1 : e ≠ L.sum / L.length)
    (hn2 : e ≠ L.sum / L.length + 1) :
    ∃ a ∈ L, ∃ b ∈ L, b + 1 < a := by
  have hlen : 0 < L.length := List.length_pos.mpr h0
  rcases Nat.lt_or_ge e (L.sum / L.length) with hlt | hge
  · -- `e` is below the floor average: some element exceeds it
    have hf : ∃ f ∈ L, L.sum / L.length < f := by
      by_contra hiv
      push_neg at hiv
      have hs : L.sum < L.sum / L.length * L.length :=
        sum_lt_mul_length hiv ⟨e, he, hlt⟩
      exact absurd hs (Nat.not_lt.mpr (Nat.div_mul_le_self _ _))
    rcases hf with ⟨f, hfL, hnf⟩
    exact ⟨f, hfL, e, he, by omega⟩
  · -- `e` is at least the floor average plus two: some element is below it
    have he2 : L.sum / L.length + 2 ≤ e := by omega
    have hf : ∃ f ∈ L, f ≤ L.sum / L.length := by
      by_contra hiv
      push_neg at hiv
      have hs : (L.sum / L.length + 1) * L.length ≤ L.sum :=
        mul_length_le_sum (fun x hx => hiv x hx)
      have := (Nat.le_div_iff_mul_le hlen).mpr hs
      omega
    rcases hf with ⟨f, hfL, hnf⟩
    exact ⟨e, he, f, hfL, by omega⟩

/-- Full characterization of the error outcomes of `is_logged_correctly` on a
nonempty table: it reports an error exactly when two sequence lengths differ
by more than one, or every sequence has at least two entries while no channel
is named `sample`. -/
lemma is_logged_correctly_err_iff (tbl : List (String × List α))
    (hne : tbl ≠ []) :
    (∃ m, is_logged_correctly tbl = Check.err m) ↔
      ((∃ p ∈ tbl, ∃ q ∈ tbl, q.2.length + 1 < p.2.length) ∨
       ((∀ p ∈ tbl, 2 ≤ p.2.length) ∧ ∀ p ∈ tbl, p.1 ≠ "sample")) := by
  simp only [is_logged_correctly]
  set L := tbl.map (fun kv => kv.2.length) with hLdef
  set n := L.sum / L.length with hndef
  have hL0 : L ≠ [] := by
    simp only [hLdef, ne_eq, List.map_eq_nil_iff]
    exact hne
  have hlen : 0 < L.length := List.length_pos.mpr hL0
  have hmemL : ∀ p ∈ tbl, p.2.length ∈ L := by
    intro p hp
    exact List.mem_map.mpr ⟨p, hp, rfl⟩
  rw [if_neg (by omega : ¬ L.length = 0)]
  by_cases hbal : (L.all fun e => e == n || e == n + 1) = true
  · have hball : ∀ e ∈ L, e = n ∨ e = n + 1 := by
      intro e heL
      have := List.all_eq_true.mp hbal e heL
      simpa using this
    rw [if_neg (by simp [hbal])]
    by_cases hsnd : (decide (1 < n) && !(tbl.any fun kv => kv.1 == "sample"))
        = true
    · rw [if_pos hsnd]
      have hn2 : 1 < n := by
        have h := hsnd
        simp only [Bool.and_eq_true, decide_eq_true_eq] at h
        exact h.1
      have hnos : ∀ p ∈ tbl, p.1 ≠ "sample" := by
        have h := hsnd
        simp only [Bool.and_eq_true, Bool.not_eq_true'] at h
        intro p hp
        have := List.any_eq_false.mp h.2 p hp
        simpa using this
      constructor
      · intro _
        refine Or.inr ⟨?_, hnos⟩
        intro p hp
        rcases hball _ (hmemL p hp) with h | h <;> omega
      · intro _
        exact ⟨noSampleMsg, rfl⟩
    · rw [if_neg hsnd]
      constructor
      · rintro ⟨m, hm⟩
        cases hm
      · rintro (⟨p, hp, q, hq, hlt⟩ | ⟨h2, hnos⟩)
        · exfalso
          rcases hball _ (hmemL p hp) with h | h <;>
            rcases hball _ (hmemL q hq) with h' | h' <;> omega
        · exfalso
          by_cases h1n : 1 < n
          · have hany : (tbl.any fun kv => kv.1 == "sample") = true := by
              by_contra hanyf
              exact hsnd (by simp [h1n, Bool.eq_false_iff.mpr hanyf])
            rcases List.any_eq_true.mp hany with ⟨kv, hkv, hs⟩
            exact hnos kv hkv (by simpa using hs)
          · have hge : ∀ e ∈ L, 2 ≤ e := by
              intro e heL
              rcases List.mem_map.mp heL with ⟨p, hp, rfl⟩
              exact h2 p hp
            have : 2 ≤ n := by
              rw [hndef]
              exact (Nat.le_div_iff_mul_le hlen).mpr (mul_length_le_sum hge)
            omega
  · have hballf : (L.all fun e => e == n || e == n + 1) = false :=
      Bool.eq_false_iff.mpr hbal
    rw [if_pos (by simp [hballf])]
    constructor
    · intro _
      left
      rcases List.all_eq_false.mp hballf with ⟨e, heL, hep⟩
      have hne12 : e ≠ n ∧ e ≠ n + 1 := by simpa using hep
      rcases exists_skew_of_not_balanced hL0 heL
          (by rw [← hndef]; exact hne12.1) (by rw [← hndef]; exact hne12.2)
        with ⟨a, haL, b, hbL, hab⟩
      rcases List.mem_map.mp haL with ⟨p, hp, hpa⟩
      rcases List.mem_map.mp hbL with ⟨q, hq, hqb⟩
      exact ⟨p, hp, q, hq, by omega⟩
    · intro _
      exact ⟨imbalanceMsg, rfl⟩

lemma write_inactive (s : SampleLogger α) (key : String) (value : α)
    (hin : s.is_logging_active = false) :
    write false s key value = (s, Check.ok) := by
  simp [write, hin]

lemma write_fst_quit (s : SampleLogger α) (key : String) (value : α) :
    (write false s key value).1.quit_after_n_samples =
      s.quit_after_n_samples := by
  by_cases hact : s.is_logging_active = true
  · rw [writeActive s key value hact]
    split <;> rfl
  · rw [write_inactive s key value (by simpa using hact)]

lemma write_fst_samples (s : SampleLogger α) (key : String) (value : α)
    (hact : s.is_logging_active = true) :
    (write false s key value).1.samples_seen =
      if (key == "sample") = true then (s.samples_seen + 1) % u64Mod
      else s.samples_seen := by
  rw [writeActive s key value hact]
  split <;> rfl

lemma run_nil (s : SampleLogger α) : run ([] : List (String × α)) s = s := rfl

lemma run_cons (op : String × α) (rest : List (String × α))
    (s : SampleLogger α) :
    run (op :: rest) s = run rest (write false s op.1 op.2).1 := rfl

/-- Invariant carried through a run under a stop threshold `N`: the `sample`
column length tracks `samples_seen`, which never exceeds `N` and ends at
`min N (initial + number of sample writes)`. -/
lemma run_sample_invariant (ops : List (String × α)) (s : SampleLogger α)
    (N : Nat) (hN : N < u64Mod) (hq : s.quit_after_n_samples = some N)
    (hlen : channelLen s.debug_values "sample" = s.samples_seen)
    (hle : s.samples_seen ≤ N) :
    (run ops s).quit_after_n_samples = some N ∧
    channelLen (run ops s).debug_values "sample" = (run ops s).samples_seen ∧
    (run ops s).samples_seen =
      min N (s.samples_seen + ops.countP (fun op => op.1 == "sample")) := by
  induction ops generalizing s with
  | nil =>
    refine ⟨hq, hlen, ?_⟩
    rw [run_nil]
    simp only [List.countP_nil]
    omega
  | cons op rest ih =>
    rw [run_cons, List.countP_cons]
    by_cases hact : s.is_logging_active = true
    · have hss : s.samples_seen < N := by
        simpa [SampleLogger.is_logging_active, hq] using hact
      by_cases hkey : (op.1 == "sample") = true
      · have hkeyeq : op.1 = "sample" := by simpa using hkey
        have hq' : (write false s op.1 op.2).1.quit_after_n_samples = some N :=
          by rw [write_fst_quit]; exact hq
        have hdv : (write false s op.1 op.2).1.debug_values =
            pushValue s.debug_values op.1 op.2 :=
          write_fst_debug_values_active s op.1 op.2 hact
        have hss' : (write false s op.1 op.2).1.samples_seen =
            s.samples_seen + 1 := by
          rw [write_fst_samples s op.1 op.2 hact, if_pos hkey]
          exact Nat.mod_eq_of_lt (by omega)
        have hlen' : channelLen (write false s op.1 op.2).1.debug_values
            "sample" = (write false s op.1 op.2).1.samples_seen := by
          rw [hdv, hss', hkeyeq, channelLen_pushValue_same, hlen]
        have hle' : (write false s op.1 op.2).1.samples_seen ≤ N := by omega
        rcases ih _ hq' hlen' hle' with ⟨h1, h2, h3⟩
        refine ⟨h1, h2, ?_⟩
        rw [h3, hss', if_pos hkey]
        omega
      · have hkeyne : op.1 ≠ "sample" := by simpa using hkey
        have hq' : (write false s op.1 op.2).1.quit_after_n_samples = some N :=
          by rw [write_fst_quit]; exact hq
        have hdv : (write false s op.1 op.2).1.debug_values =
            pushValue s.debug_values op.1 op.2 :=
          write_fst_debug_values_active s op.1 op.2 hact
        have hss' : (write false s op.1 op.2).1.samples_seen =
            s.samples_seen := by
          rw [write_fst_samples s op.1 op.2 hact, if_neg (by simp [hkey])]
        have hlen' : channelLen (write false s op.1 op.2).1.debug_values
            "sample" = (write false s op.1 op.2).1.samples_seen := by
          rw [hdv, channelLen_pushValue_other _ _ _ _ hkeyne, hlen, hss']
        have hle' : (write false s op.1 op.2).1.samples_seen ≤ N := by omega
        rcases ih _ hq' hlen' hle' with ⟨h1, h2, h3⟩
        refine ⟨h1, h2, ?_⟩
        rw [h3, hss', if_neg (by simp [hkey])]
        omega
    · have hin : s.is_logging_active = false := by simpa using hact
      have hssN : N ≤ s.samples_seen := by
        simpa [SampleLogger.is_logging_active, hq] using hin
      rw [write_inactive s op.1 op.2 hin]
      rcases ih _ hq hlen hle with ⟨h1, h2, h3⟩
      refine ⟨h1, h2, ?_⟩
      rw [h3]
      by_cases hkey : (op.1 == "sample") = true
      · rw [if_pos hkey]; omega
      · rw [if_neg (by simp [hkey])]; omega

lemma foldr_max_const {l : List Nat} {c : Nat} (hne : l ≠ [])
    (h : ∀ e ∈ l, e = c) : l.foldr max 0 = c := by
  induction l with
  | nil => cases hne rfl
  | cons a t ih =>
    obtain rfl : a = c := h a (by simp)
    cases t with
    | nil => simp
    | cons b t' =>
      rw [List.foldr_cons, ih (by simp) (fun e he => h e (by simp [he]))]
      simp

/-- On a nonempty table whose columns all have the same length and that has a
`sample` channel whenever that length exceeds one, the validation passes. -/
lemma is_logged_correctly_ok_uniform (tbl : List (String × List α)) (L : Nat)
    (hne : tbl ≠ []) (hlenL : ∀ kv ∈ tbl, kv.2.length = L)
    (hsample : 1 < L → ∃ p ∈ tbl, p.1 = "sample") :
    is_logged_correctly tbl = Check.ok := by
  have hLne : tbl.map (fun kv => kv.2.length) ≠ [] := by
    simp only [ne_eq, List.map_eq_nil_iff]; exact hne
  have hpos : 0 < (tbl.map (fun kv => kv.2.length)).length :=
    List.length_pos.mpr hLne
  have hall : ∀ e ∈ tbl.map (fun kv => kv.2.length), e = L := by
    intro e he
    rcases List.mem_map.mp he with ⟨p, hp, rfl⟩
    exact hlenL p hp
  have hsum : (tbl.map (fun kv => kv.2.length)).sum =
      L * (tbl.map (fun kv => kv.2.length)).length :=
    Nat.le_antisymm (sum_le_mul_length (fun e he => (hall e he).le))
      (mul_length_le_sum (fun e he => (hall e he).ge))
  have hn : (tbl.map (fun kv => kv.2.length)).sum /
      (tbl.map (fun kv => kv.2.length)).length = L := by
    rw [hsum]
    exact Nat.mul_div_cancel L hpos
  simp only [is_logged_correctly]
  rw [if_neg (by omega : ¬ (tbl.map (fun kv => kv.2.length)).length = 0), hn]
  have hbal : ((tbl.map (fun kv => kv.2.length)).all
      (fun e => e == L || e == L + 1)) = true := by
    refine List.all_eq_true.mpr (fun e he => ?_)
    simp [hall e he]
  rw [if_neg (by simp [hbal])]
  by_cases h1 : 1 < L
  · rcases hsample h1 with ⟨p, hp, hps⟩
    have hany : (tbl.any fun kv => kv.1 == "sample") = true :=
      List.any_eq_true.mpr ⟨p, hp, by simp [hps]⟩
    rw [if_neg (by simp [hany])]
  · rw [if_neg (by simp [h1])]

lemma foldl_pushValue_cons_of_ne (entries : List (String × α)) (k : String)
    (vs : List α) (data : List (String × List α))
    (h : ∀ e ∈ entries, e.1 ≠ k) :
    entries.foldl (fun d hx => pushValue d hx.1 hx.2) ((k, vs) :: data) =
      (k, vs) :: entries.foldl (fun d hx => pushValue d hx.1 hx.2) data := by
  induction entries generalizing data with
  | nil => rfl
  | cons e rest ih =>
    simp only [List.foldl_cons]
    have hek : (k == e.1) = false := by
      simpa using Ne.symm (h e (by simp))
    rw [show pushValue ((k, vs) :: data) e.1 e.2 =
        (k, vs) :: pushValue data e.1 e.2 from by simp [pushValue, hek]]
    exact ih _ (fun x hx => h x (by simp [hx]))

/-- One record of the file written for a uniform table: its fields all parse
back, and pushing them onto the table truncated at `j` extends every column
to `j + 1` entries. -/
lemma read_record_step (dec : String → Option α) (enc : α → String) (j : Nat)
    (tbl : List (String × List α))
    (hnd : (tbl.map (fun kv => kv.1)).Nodup)
    (hj : ∀ kv ∈ tbl, j < kv.2.length)
    (hdec : ∀ kv ∈ tbl, ∀ v ∈ kv.2, dec (enc v) = some v) :
    ∃ row : List α,
      parseRow dec (tbl.map (fun kv => match kv.2.get? j with
          | some v => enc v
          | none => "")) = some row ∧
      tbl.length ≤ row.length ∧
      ((tbl.map (fun kv => kv.1)).zip row).foldl
          (fun d hx => pushValue d hx.1 hx.2)
          (tbl.map (fun kv => (kv.1, kv.2.take j))) =
        tbl.map (fun kv => (kv.1, kv.2.take (j + 1))) := by
  induction tbl with
  | nil => exact ⟨[], rfl, by simp, rfl⟩
  | cons kv rest ih =>
    obtain ⟨k, vs⟩ := kv
    have hnd' : (k :: rest.map (fun kv => kv.1)).Nodup := by simpa using hnd
    rcases List.nodup_cons.mp hnd' with ⟨hknot, hndrest⟩
    have hjv : j < vs.length := hj (k, vs) (by simp)
    have hget : vs.get? j = some (vs.get ⟨j, hjv⟩) := List.get?_eq_get hjv
    have hdecv : dec (enc (vs.get ⟨j, hjv⟩)) = some (vs.get ⟨j, hjv⟩) :=
      hdec (k, vs) (by simp) _ (List.get_mem vs _ _)
    rcases ih hndrest (fun x hx => hj x (by simp [hx]))
        (fun x hx v hv => hdec x (by simp [hx]) v hv)
      with ⟨row, hrow, hlenr, hfold⟩
    refine ⟨vs.get ⟨j, hjv⟩ :: row, ?_, ?_, ?_⟩
    · simp only [List.map_cons, hget, parseRow, hdecv, hrow]
    · simp only [List.length_cons, List.length_map] at hlenr ⊢
      omega
    · simp only [List.map_cons, List.zip_cons_cons, List.foldl_cons]
      rw [show pushValue ((k, vs.take j) ::
            rest.map (fun kv => (kv.1, kv.2.take j))) k (vs.get ⟨j, hjv⟩) =
          (k, vs.take j ++ [vs.get ⟨j, hjv⟩]) ::
            rest.map (fun kv => (kv.1, kv.2.take j)) from by
        simp [pushValue]]
      have hne_entries : ∀ e ∈ (rest.map (fun kv => kv.1)).zip row,
          e.1 ≠ k := by
        rintro ⟨a, b⟩ hab rfl
        exact hknot (List.of_mem_zip hab).1
      rw [foldl_pushValue_cons_of_ne _ _ _ _ hne_entries, hfold]
      have htake : vs.take (j + 1) = vs.take j ++ [vs.get ⟨j, hjv⟩] := by
        rw [List.take_succ, ← List.get?_eq_getElem?, hget]
        rfl
      rw [htake]

/-- The first record of the file written for a uniform table, pushed into the
initially empty map: every channel ends up with exactly its first value. -/
lemma read_record_first (dec : String → Option α) (enc : α → String)
    (tbl : List (String × List α))
    (hnd : (tbl.map (fun kv => kv.1)).Nodup)
    (hj : ∀ kv ∈ tbl, 0 < kv.2.length)
    (hdec : ∀ kv ∈ tbl, ∀ v ∈ kv.2, dec (enc v) = some v) :
    ∃ row : List α,
      parseRow dec (tbl.map (fun kv => match kv.2.get? 0 with
          | some v => enc v
          | none => "")) = some row ∧
      tbl.length ≤ row.length ∧
      ((tbl.map (fun kv => kv.1)).zip row).foldl
          (fun d hx => pushValue d hx.1 hx.2) [] =
        tbl.map (fun kv => (kv.1, kv.2.take 1)) := by
  induction tbl with
  | nil => exact ⟨[], rfl, by simp, rfl⟩
  | cons kv rest ih =>
    obtain ⟨k, vs⟩ := kv
    have hnd' : (k :: rest.map (fun kv => kv.1)).Nodup := by simpa using hnd
    rcases List.nodup_cons.mp hnd' with ⟨hknot, hndrest⟩
    have hjv : 0 < vs.length := hj (k, vs) (by simp)
    have hget : vs.get? 0 = some (vs.get ⟨0, hjv⟩) := List.get?_eq_get hjv
    have hdecv : dec (enc (vs.get ⟨0, hjv⟩)) = some (vs.get ⟨0, hjv⟩) :=
      hdec (k, vs) (by simp) _ (List.get_mem vs _ _)
    rcases ih hndrest (fun x hx => hj x (by simp [hx]))
        (fun x hx v hv => hdec x (by simp [hx]) v hv)
      with ⟨row, hrow, hlenr, hfold⟩
    refine ⟨vs.get ⟨0, hjv⟩ :: row, ?_, ?_, ?_⟩
    · simp only [List.map_cons, hget, parseRow, hdecv, hrow]
    · simp only [List.length_cons, List.length_map] at hlenr ⊢
      omega
    · simp only [List.map_cons, List.zip_cons_cons, List.foldl_cons]
      rw [show pushValue [] k (vs.get ⟨0, hjv⟩) =
          [(k, [vs.get ⟨0, hjv⟩])] from rfl]
      have hne_entries : ∀ e ∈ (rest.map (fun kv => kv.1)).zip row,
          e.1 ≠ k := by
        rintro ⟨a, b⟩ hab rfl
        exact hknot (List.of_mem_zip hab).1
      rw [foldl_pushValue_cons_of_ne _ _ _ _ hne_entries, hfold]
      have htake : vs.take 1 = [vs.get ⟨0, hjv⟩] := by
        rw [show (1 : Nat) = 0 + 1 from rfl, List.take_succ,
          ← List.get?_eq_getElem?, hget]
        rfl
      rw [htake]

/-- Folding the first `k` data rows of the written file through the record
loop reconstructs the table truncated to `k` values per channel (`[]` for
`k = 0`, since the reader's map starts empty). -/
lemma read_flush_records (dec : String → Option α) (enc : α → String)
    (tbl : List (String × List α)) (L : Nat)
    (hnd : (tbl.map (fun kv => kv.1)).Nodup)
    (hlenL : ∀ kv ∈ tbl, kv.2.length = L)
    (hdec : ∀ kv ∈ tbl, ∀ v ∈ kv.2, dec (enc v) = some v)
    (k : Nat) (hk : k ≤ L) :
    ((List.range k).map (fun i => tbl.map (fun kv => match kv.2.get? i with
        | some v => enc v
        | none => ""))).foldl
        (readStep dec (tbl.map (fun kv => kv.1))) (some []) =
      some (if k = 0 then []
            else tbl.map (fun kv => (kv.1, kv.2.take k))) := by
  induction k with
  | zero => rfl
  | succ k ihk =>
    rw [List.range_succ, List.map_append, List.foldl_append,
      ihk (by omega), List.map_cons, List.map_nil, List.foldl_cons,
      List.foldl_nil]
    by_cases hk0 : k = 0
    · subst hk0
      rcases read_record_first dec enc tbl hnd
          (fun kv hkv => by rw [hlenL kv hkv]; omega) hdec
        with ⟨row, hrow, hlenrow, hfold⟩
      simp only [if_pos rfl, readStep, Option.bind_eq_bind, Option.some_bind,
        hrow, hfold]
      rw [if_pos (by simpa using hlenrow)]
      simp [hfold]
    · rcases read_record_step dec enc k tbl hnd
          (fun kv hkv => by rw [hlenL kv hkv]; omega) hdec
        with ⟨row, hrow, hlenrow, hfold⟩
      simp only [if_neg hk0, readStep, Option.bind_eq_bind, Option.some_bind,
        hrow]
      rw [if_pos (by simpa using hlenrow)]
      simp [hfold]

lemma map_take_full (tbl : List (String × List α)) (L : Nat)
    (hlenL : ∀ kv ∈ tbl, kv.2.length = L) :
    tbl.map (fun kv => (kv.1, kv.2.take L)) = tbl := by
  induction tbl with
  | nil => rfl
  | cons kv rest ih =>
    obtain ⟨k, vs⟩ := kv
    have hv : vs.length = L := hlenL (k, vs) (by simp)
    simp only [List.map_cons]
    rw [ih (fun x hx => hlenL x (by simp [hx]))]
    rw [show vs.take L = vs from by rw [← hv, List.take_length]]

/-! ## Claims -/

/-- C1: for every accepted (logging-active) `record` call, `write` returns an
imbalance error if and only if, after the value has been appended, some
channel's sequence length differs from another channel's by more than one, or
every channel already holds at least two values (a second-or-later sample
round has occurred) while no channel literally named `sample` is present. -/
theorem record_imbalance_iff {α : Type} (s : SampleLogger α) (key : String)
    (value : α) (hact : s.is_logging_active = true) :
    (∃ m, (write false s key value).2 = Check.err m) ↔
      ((∃ p ∈ pushValue s.debug_values key value,
          ∃ q ∈ pushValue s.debug_values key value,
            q.2.length + 1 < p.2.length) ∨
       ((∀ p ∈ pushValue s.debug_values key value, 2 ≤ p.2.length) ∧
        ∀ p ∈ pushValue s.debug_values key value, p.1 ≠ "sample")) := by
  rw [write_snd_active s key value hact]
  exact is_logged_correctly_err_iff _ (pushValue_ne_nil _ _ _)

/-- Witness for C1 at a concrete erring call: appending a third value to `a`
while `b` holds one value makes the lengths `3` and `1`. -/
theorem record_imbalance_iff_witness :
    (⟨[("a", [1, 2]), ("b", [3])], 0, none, "f"⟩
        : SampleLogger Nat).is_logging_active = true ∧
    ((∃ m, (write false
        (⟨[("a", [1, 2]), ("b", [3])], 0, none, "f"⟩ : SampleLogger Nat)
        "a" 4).2 = Check.err m) ↔
      ((∃ p ∈ pushValue [("a", [1, 2]), ("b", [3])] "a" 4,
          ∃ q ∈ pushValue [("a", [1, 2]), ("b", [3])] "a" 4,
            q.2.length + 1 < p.2.length) ∨
       ((∀ p ∈ pushValue [("a", [1, 2]), ("b", [3])] "a" 4, 2 ≤ p.2.length) ∧
        ∀ p ∈ pushValue [("a", [1, 2]), ("b", [3])] "a" 4,
          p.1 ≠ "sample"))) :=
  ⟨rfl, record_imbalance_iff _ "a" 4 rfl⟩

/-- C2, counterexample to the claim as stated: the table `{a: [1, 2]}` has no
blank cells, yet `write_debug_values` rejects it (two completed rounds, no
`sample` channel) and writes nothing, so reading back the written destination
cannot reproduce it. -/
theorem write_read_roundtrip_counterexample :
    write_debug_values false toString
        (⟨[("a", [1, 2])], 0, none, "f"⟩ : SampleLogger Nat) =
      FlushResult.error noSampleMsg := rfl

/-- C2 (amended): for every recorder whose nonempty table has distinct keys,
columns all of one length `L ≥ 1` (no blank cells), and a `sample` channel
whenever `L > 1` (so the flush-time validation passes), flushing succeeds and
reading the written rows back yields exactly the original table — same key
set, order and per-key sequences — provided the text encoding round-trips
each recorded value. -/
theorem write_read_roundtrip {α : Type} (enc : α → String)
    (dec : String → Option α) (s : SampleLogger α) (L : Nat)
    (hnd : (s.debug_values.map (fun kv => kv.1)).Nodup)
    (hne : s.debug_values ≠ []) (hL1 : 1 ≤ L)
    (hlenL : ∀ kv ∈ s.debug_values, kv.2.length = L)
    (hsample : 1 < L → ∃ p ∈ s.debug_values, p.1 = "sample")
    (hdec : ∀ kv ∈ s.debug_values, ∀ v ∈ kv.2, dec (enc v) = some v) :
    write_debug_values false enc s =
      FlushResult.ok (some (flushFile enc s.debug_values)) ∧
    read_csv_as_audio_data dec (flushFile enc s.debug_values) =
      ReadResult.ok s.debug_values := by
  constructor
  · simp [write_debug_values,
      is_logged_correctly_ok_uniform s.debug_values L hne hlenL hsample]
  · have hmax : (s.debug_values.map (fun kv => kv.2.length)).foldr max 0
        = L :=
      foldr_max_const (by simpa using hne) (fun e he => by
        rcases List.mem_map.mp he with ⟨p, hp, rfl⟩
        exact hlenL p hp)
    simp only [flushFile, hmax, read_csv_as_audio_data]
    rw [read_flush_records dec enc s.debug_values L hnd hlenL hdec L le_rfl,
      if_neg (by omega : ¬ L = 0), map_take_full s.debug_values L hlenL]

/-- Witness for C2 (amended) on the table `{sample: [1, 2], b: [3, 4]}` with
the decimal encoding of naturals. -/
theorem write_read_roundtrip_witness :
    write_debug_values false toString
        (⟨[("sample", [1, 2]), ("b", [3, 4])], 2, none, "f"⟩
          : SampleLogger Nat) =
      FlushResult.ok (some (flushFile toString
        [("sample", [1, 2]), ("b", [3, 4])])) ∧
    read_csv_as_audio_data decNat
        (flushFile toString [("sample", [1, 2]), ("b", [3, 4])]) =
      ReadResult.ok [("sample", [1, 2]), ("b", [3, 4])] :=
  write_read_roundtrip toString decNat _ 2 (by decide) (by decide)
    (by decide) (by decide) (by decide) (by decide)

/-- C3: starting from a fresh recorder with stop threshold `N`, any sequence
of `record` calls leaves exactly `min N (number of sample calls)` values in
the `sample` channel — so at most `N` values ever, no matter how many more
`record("sample", v)` calls are made — the counter equals that length, and
`is_logging_active` is `false` exactly once the counter has reached `N`. -/
theorem set_stop_after_exact {α : Type} (ops : List (String × α)) (N : Nat)
    (file : String) (hN : N < u64Mod) (s : SampleLogger α)
    (hs : s = run ops ((SampleLogger.new file).set_quit_after_n_samples N)) :
    channelLen s.debug_values "sample" =
      min N (ops.countP (fun op => op.1 == "sample")) ∧
    s.samples_seen = channelLen s.debug_values "sample" ∧
    (s.is_logging_active = false ↔ N ≤ s.samples_seen) := by
  subst hs
  rcases run_sample_invariant ops
      ((SampleLogger.new (α := α) file).set_quit_after_n_samples N) N hN
      rfl rfl (Nat.zero_le N)
    with ⟨h1, h2, h3⟩
  refine ⟨?_, h2.symm, ?_⟩
  · rw [h2, h3]
    simp [SampleLogger.new, SampleLogger.set_quit_after_n_samples]
  · simp [SampleLogger.is_logging_active, h1, decide_eq_false_iff_not,
      Nat.not_lt]

/-- Witness for C3: threshold 2 and three `sample` writes (plus one other
write) leave exactly two values in the `sample` channel and stop logging. -/
theorem set_stop_after_exact_witness :
    channelLen (run [("sample", 1), ("sample", 2), ("x", 3), ("sample", 4)]
        ((SampleLogger.new (α := Nat)
          "f").set_quit_after_n_samples 2)).debug_values "sample" =
      min 2 ([("sample", (1 : Nat)), ("sample", 2), ("x", 3),
        ("sample", 4)].countP (fun op => op.1 == "sample")) ∧
    (run [("sample", 1), ("sample", 2), ("x", 3), ("sample", 4)]
        ((SampleLogger.new (α := Nat)
          "f").set_quit_after_n_samples 2)).samples_seen =
      channelLen (run [("sample", 1), ("sample", 2), ("x", 3), ("sample", 4)]
        ((SampleLogger.new (α := Nat)
          "f").set_quit_after_n_samples 2)).debug_values "sample" ∧
    ((run [("sample", 1), ("sample", 2), ("x", 3), ("sample", 4)]
        ((SampleLogger.new (α := Nat)
          "f").set_quit_after_n_samples 2)).is_logging_active = false ↔
      2 ≤ (run [("sample", 1), ("sample", 2), ("x", 3), ("sample", 4)]
        ((SampleLogger.new (α := Nat)
          "f").set_quit_after_n_samples 2)).samples_seen) :=
  set_stop_after_exact _ 2 "f" (by decide) _ rfl

/-- C4, counterexample to the claim as stated: the successful calls
`record("a",1)`, `record("b",1)`, `record("a",2)` leave channel `a` with two
values while no channel named `sample` exists — the check only fires once the
floor-average length exceeds one. -/
theorem sample_key_invariant_counterexample :
    (write false (SampleLogger.new (α := Nat) "f") "a" 1).2 = Check.ok ∧
    (write false (write false (SampleLogger.new (α := Nat) "f") "a" 1).1
      "b" 1).2 = Check.ok ∧
    (write false (write false (write false (SampleLogger.new (α := Nat) "f")
      "a" 1).1 "b" 1).1 "a" 2).2 = Check.ok ∧
    (∃ p ∈ (write false (write false (write false
        (SampleLogger.new (α := Nat) "f") "a" 1).1 "b" 1).1
        "a" 2).1.debug_values, 2 ≤ p.2.length) ∧
    ¬ ∃ p ∈ (write false (write false (write false
        (SampleLogger.new (α := Nat) "f") "a" 1).1 "b" 1).1
        "a" 2).1.debug_values, p.1 = "sample" := by
  decide

/-- C4 (amended): after any accepted `record` call that returns success, if
EVERY channel's sequence has length at least 2, then a channel literally
named `sample` exists in the table. -/
theorem sample_key_after_two_rounds {α : Type} (s : SampleLogger α)
    (key : String) (value : α) (hact : s.is_logging_active = true)
    (hok : (write false s key value).2 = Check.ok)
    (hall : ∀ p ∈ (write false s key value).1.debug_values, 2 ≤ p.2.length) :
    ∃ p ∈ (write false s key value).1.debug_values, p.1 = "sample" := by
  rw [write_fst_debug_values_active s key value hact] at hall ⊢
  rw [write_snd_active s key value hact] at hok
  by_contra hno
  push_neg at hno
  rcases (is_logged_correctly_err_iff _
      (pushValue_ne_nil s.debug_values key value)).mpr
      (Or.inr ⟨hall, hno⟩) with ⟨m, hm⟩
  rw [hok] at hm
  cases hm

/-- Witness for C4 (amended): a successful `sample` write on
`{sample: [1], b: [2, 3]}` leaves all channels with two values and the
`sample` key present. -/
theorem sample_key_after_two_rounds_witness :
    ∃ p ∈ (write false
      (⟨[("sample", [1]), ("b", [2, 3])], 1, none, "f"⟩ : SampleLogger Nat)
      "sample" 4).1.debug_values, p.1 = "sample" :=
  sample_key_after_two_rounds _ "sample" 4 rfl (by decide) (by decide)

/-- C5, evaluation at the failing input: two recorder states holding the same
channel mapping `{sample: [1], other: [2]}` but different internal iteration
orders produce files with different header rows (and matching data-row
order), so the header follows the hash map's iteration order — which Rust's
`HashMap` leaves unspecified — not first-insertion order. -/
theorem flush_header_follows_iteration_order :
    write_debug_values false toString
        (⟨[("sample", [1]), ("other", [2])], 1, none, "f"⟩
          : SampleLogger Nat) =
      FlushResult.ok (some [["sample", "other"], ["1", "2"]]) ∧
    write_debug_values false toString
        (⟨[("other", [2]), ("sample", [1])], 1, none, "f"⟩
          : SampleLogger Nat) =
      FlushResult.ok (some [["other", "sample"], ["2", "1"]]) :=
  ⟨rfl, rfl⟩

/-- C6, evaluation at the failing input: on a file with header `a` and one
record whose field `x` does not parse, `read_csv_as_audio_data` panics (the
source calls `.expect`) instead of returning a parse error. -/
theorem read_parse_failure_panics :
    read_csv_as_audio_data decNat [["a"], ["x"]] =
      ReadResult.panic := rfl

/-- C7: when a stop threshold is set and the sample counter has reached it,
`record` returns success and leaves the whole recorder state unchanged. -/
theorem write_inactive_noop {α : Type} (s : SampleLogger α) (key : String)
    (value : α) (n : Nat) (hq : s.quit_after_n_samples = some n)
    (hge : n ≤ s.samples_seen) :
    write false s key value = (s, Check.ok) := by
  have hin : s.is_logging_active = false := by
    simp [SampleLogger.is_logging_active, hq]
    omega
  exact write_inactive s key value hin

/-- Witness for C7: threshold 1 reached, a further `sample` write changes
nothing and succeeds. -/
theorem write_inactive_noop_witness :
    write false (⟨[("sample", [1])], 1, some 1, "f"⟩ : SampleLogger Nat)
        "sample" 2 =
      (⟨[("sample", [1])], 1, some 1, "f"⟩, Check.ok) :=
  write_inactive_noop _ "sample" 2 1 rfl (by decide)

/-- C8: flushing a recorder whose nonempty channel table violates the
channel-table invariants (skew above one, or two completed rounds without a
`sample` channel) returns an error; the error outcome carries no rows, as the
source only creates the destination file after the validation passes. -/
theorem flush_invalid_writes_nothing {α : Type} (enc : α → String)
    (s : SampleLogger α) (hne : s.debug_values ≠ [])
    (hbad : (∃ p ∈ s.debug_values, ∃ q ∈ s.debug_values,
        q.2.length + 1 < p.2.length) ∨
      ((∀ p ∈ s.debug_values, 2 ≤ p.2.length) ∧
       ∀ p ∈ s.debug_values, p.1 ≠ "sample")) :
    ∃ m, write_debug_values false enc s = FlushResult.error m := by
  rcases (is_logged_correctly_err_iff s.debug_values hne).mpr hbad
    with ⟨m, hm⟩
  exact ⟨m, by simp [write_debug_values, hm]⟩

/-- Witness for C8 on the skewed table `{a: [1, 2, 3], b: [0]}`. -/
theorem flush_invalid_writes_nothing_witness :
    ∃ m, write_debug_values false toString
        (⟨[("a", [1, 2, 3]), ("b", [0])], 0, none, "f"⟩ : SampleLogger Nat) =
      FlushResult.error m :=
  flush_invalid_writes_nothing toString _ (by decide) (by decide)

/-- C9: with the `disabled` feature compiled in, every `record` call returns
success without mutating any state, and every flush returns success while
writing no file at all. -/
theorem disabled_noop {α : Type} (enc : α → String) (s : SampleLogger α)
    (key : String) (value : α) :
    write true s key value = (s, Check.ok) ∧
      write_debug_values true enc s = FlushResult.ok none :=
  ⟨rfl, rfl⟩

/-- C10: flushing a recorder whose channel table is empty (in particular a
freshly constructed one) panics: `is_logged_correctly` divides the sum of the
sequence lengths by the number of channels, which is zero. -/
theorem flush_empty_table_panics {α : Type} (enc : α → String)
    (s : SampleLogger α) (h : s.debug_values = []) :
    write_debug_values false enc s = FlushResult.panic := by
  simp [write_debug_values, is_logged_correctly, h]

/-- Witness for C10 on a freshly constructed recorder. -/
theorem flush_empty_table_panics_witness :
    write_debug_values false toString (SampleLogger.new (α := Nat) "f") =
      FlushResult.panic :=
  flush_empty_table_panics toString _ rfl

end LLAD
